import Mathlib

/-!
Verification of the arrow2 schema mapping of `serde_arrow`
(`src/serde_arrow/src/arrow2_impl/schema.rs`).

The development embeds:
* the backend (arrow2) type system, as used by the mapping code:
  `TimeUnit`, `IntegerType`, `UnionMode`, `DataType`, `Field`;
* the canonical schema model: `GenericTimeUnit`, `GenericDataType`,
  `GenericField` (the definitions live in `internal/schema.rs`, outside the
  provided sources; their shape follows the spec, §3);
* `decodeField` — `TryFrom<&Field> for GenericField` (schema.rs:81-199);
* `encodeField` — `TryFrom<&GenericField> for Field` (schema.rs:201-319);
* `validate` and the `Strategy` codec, modelled from the spec (their code is
  in `internal/schema.rs`, which is not part of the provided sources).

Interpolated debug representations inside error messages are abbreviated to
the fixed part of the message, except where a claim depends on the
interpolated part (time units), where the unit name is spelled out.
-/

set_option maxHeartbeats 1600000

namespace SerdeArrow

/-- arrow2 `TimeUnit`. -/
inductive TimeUnit
  | Second
  | Millisecond
  | Microsecond
  | Nanosecond
  deriving DecidableEq, Repr

/-- arrow2 `IntegerType` (dictionary key types). -/
inductive IntegerType
  | Int8
  | Int16
  | Int32
  | Int64
  | UInt8
  | UInt16
  | UInt32
  | UInt64
  deriving DecidableEq, Repr

/-- arrow2 `UnionMode`. -/
inductive UnionMode
  | Dense
  | Sparse
  deriving DecidableEq, Repr

/-- arrow2 `UnionMode::is_dense`. -/
def UnionMode.is_dense : UnionMode → Bool
  | .Dense => true
  | .Sparse => false

/-- Backend field metadata (`BTreeMap<String, String>` in arrow2), embedded as
an association list. -/
abbrev Metadata := List (String × String)

mutual

/-- arrow2 `DataType`, restricted to the variants the mapping code matches on,
plus `Binary` and `Time32` standing for the variants that hit the
`Cannot convert data type` catch-all arm. -/
inductive DataType
  | Null
  | Boolean
  | Int8
  | Int16
  | Int32
  | Int64
  | UInt8
  | UInt16
  | UInt32
  | UInt64
  | Float16
  | Float32
  | Float64
  | Utf8
  | LargeUtf8
  | Binary
  | Date32
  | Date64
  | Time32 (unit : TimeUnit)
  | Time64 (unit : TimeUnit)
  | Timestamp (unit : TimeUnit) (tz : Option String)
  | Decimal (precision : Nat) (scale : Nat)
  | List (element : Field)
  | LargeList (element : Field)
  | Struct (fields : List Field)
  | Map (entries : Field) (keys_sorted : Bool)
  | Union (fields : List Field) (ids : Option (List Int)) (mode : UnionMode)
  | Dictionary (key : IntegerType) (value : DataType) (is_sorted : Bool)

/-- arrow2 `Field`: name, data type, nullability and metadata. -/
inductive Field
  | mk (name : String) (data_type : DataType) (is_nullable : Bool)
      (metadata : Metadata)

end

def Field.name : Field → String
  | .mk n _ _ _ => n

def Field.data_type : Field → DataType
  | .mk _ dt _ _ => dt

def Field.is_nullable : Field → Bool
  | .mk _ _ b _ => b

def Field.metadata : Field → Metadata
  | .mk _ _ _ m => m

/-- Canonical time unit (`GenericTimeUnit` in `internal/schema.rs`). -/
inductive GenericTimeUnit
  | Second
  | Millisecond
  | Microsecond
  | Nanosecond
  deriving DecidableEq, Repr

/-- Display name of a canonical time unit, as interpolated into error
messages. -/
def GenericTimeUnit.displayName : GenericTimeUnit → String
  | .Second => "Second"
  | .Millisecond => "Millisecond"
  | .Microsecond => "Microsecond"
  | .Nanosecond => "Nanosecond"

/-- Debug name of a backend time unit, as interpolated into error messages. -/
def TimeUnit.debugName : TimeUnit → String
  | .Second => "Second"
  | .Millisecond => "Millisecond"
  | .Microsecond => "Microsecond"
  | .Nanosecond => "Nanosecond"

/-- Modelled from the spec: the `Strategy` enum lives in `internal/schema.rs`,
which is not part of the provided sources.  The spec (§3, §8) describes it as
an opaque tag with a string serialization, stored under a single reserved
metadata key; unrecognized strings fail to parse.  The particular variant set
is a representative choice; no claim depends on it. -/
inductive Strategy
  | InconsistentTypes
  | TupleAsStruct
  | MapAsStruct
  | UtcStrAsDate64
  | NaiveStrAsDate64
  deriving DecidableEq, Repr

/-- Modelled from the spec: the string serialization of a `Strategy`. -/
def Strategy.serialize : Strategy → String
  | .InconsistentTypes => "InconsistentTypes"
  | .TupleAsStruct => "TupleAsStruct"
  | .MapAsStruct => "MapAsStruct"
  | .UtcStrAsDate64 => "UtcStrAsDate64"
  | .NaiveStrAsDate64 => "NaiveStrAsDate64"

/-- Modelled from the spec: parsing a strategy string (`FromStr for Strategy`
in `internal/schema.rs`); exactly the serialized forms are recognized, any
other string is a parse failure. -/
def Strategy.parse (s : String) : Except String Strategy :=
  if s = "InconsistentTypes" then .ok .InconsistentTypes
  else if s = "TupleAsStruct" then .ok .TupleAsStruct
  else if s = "MapAsStruct" then .ok .MapAsStruct
  else if s = "UtcStrAsDate64" then .ok .UtcStrAsDate64
  else if s = "NaiveStrAsDate64" then .ok .NaiveStrAsDate64
  else .error ("Invalid strategy: " ++ s)

/-- The reserved metadata key (`STRATEGY_KEY` in `internal/schema.rs`). -/
def strategyKey : String := "SERDE_ARROW:strategy"

/-- First-match lookup in backend metadata. -/
def lookupMeta (key : String) : Metadata → Option String
  | [] => none
  | (k, v) :: rest => if k = key then some v else lookupMeta key rest

/-- Modelled from the spec: `impl From<Strategy> for BTreeMap<String, String>`
(`internal/schema.rs`): a singleton map holding the serialized strategy under
the reserved key. -/
def Strategy.intoMetadata (st : Strategy) : Metadata :=
  [(strategyKey, st.serialize)]

/-- Canonical `GenericDataType` (`internal/schema.rs`, shape per spec §3).
Children of nested kinds live on the enclosing `GenericField`. -/
inductive GenericDataType
  | Null
  | Bool
  | I8
  | I16
  | I32
  | I64
  | U8
  | U16
  | U32
  | U64
  | F16
  | F32
  | F64
  | Utf8
  | LargeUtf8
  | Date32
  | Date64
  | Time64 (unit : GenericTimeUnit)
  | Timestamp (unit : GenericTimeUnit) (tz : Option String)
  | Decimal128 (precision : Nat) (scale : Int)
  | List
  | LargeList
  | Struct
  | Map
  | Union
  | Dictionary
  deriving DecidableEq, Repr

/-- Canonical `GenericField` (`internal/schema.rs`, shape per spec §3). -/
inductive GenericField
  | mk (name : String) (data_type : GenericDataType) (nullable : Bool)
      (children : List GenericField) (strategy : Option Strategy)

def GenericField.name : GenericField → String
  | .mk n _ _ _ _ => n

def GenericField.data_type : GenericField → GenericDataType
  | .mk _ dt _ _ _ => dt

def GenericField.nullable : GenericField → Bool
  | .mk _ _ b _ _ => b

def GenericField.children : GenericField → List GenericField
  | .mk _ _ _ ch _ => ch

def GenericField.strategy : GenericField → Option Strategy
  | .mk _ _ _ _ st => st

/-- The 8 integer kinds admissible as dictionary keys. -/
def isIntegerKind : GenericDataType → Bool
  | .U8 | .U16 | .U32 | .U64 | .I8 | .I16 | .I32 | .I64 => true
  | _ => false

mutual

/-- Structural size of a backend data type, used as a termination measure for
decoding (the dictionary arm recursively decodes freshly built key/value
fields, so the builtin `sizeOf` is not directly usable). -/
def dtSize : DataType → Nat
  | .Time32 _ => 1
  | .Time64 _ => 1
  | .Timestamp _ _ => 1
  | .Decimal _ _ => 1
  | .List f => 1 + fSize f
  | .LargeList f => 1 + fSize f
  | .Struct fs => 1 + flSize fs
  | .Map f _ => 1 + fSize f
  | .Union fs _ _ => 1 + flSize fs
  | .Dictionary _ v _ => 3 + dtSize v
  | _ => 1

def fSize : Field → Nat
  | .mk _ dt _ _ => 1 + dtSize dt

def flSize : List Field → Nat
  | [] => 1
  | f :: fs => fSize f + flSize fs

end

theorem fSize_pos (f : Field) : 1 ≤ fSize f := by
  cases f with
  | mk n dt b m => simp [fSize]

theorem flSize_pos (fs : List Field) : 1 ≤ flSize fs := by
  cases fs with
  | nil => simp [flSize]
  | cons f fs => have hq := fSize_pos f; simp [flSize]; omega

theorem fSize_le_flSize_of_mem {f : Field} {fs : List Field} (h : f ∈ fs) :
    fSize f ≤ flSize fs := by
  induction fs with
  | nil => cases h
  | cons g gs ih =>
    cases h with
    | head => simp [flSize] <;> omega
    | tail _ h' =>
      have h1 := ih h'
      have h2 := fSize_pos g
      simp [flSize] <;> omega

/-- Maps an arrow2 `IntegerType` to the corresponding scalar `DataType`
(the `key_type` match in the dictionary decode arm, schema.rs:171-180). -/
def IntegerType.toDataType : IntegerType → DataType
  | .Int8 => .Int8
  | .Int16 => .Int16
  | .Int32 => .Int32
  | .Int64 => .Int64
  | .UInt8 => .UInt8
  | .UInt16 => .UInt16
  | .UInt32 => .UInt32
  | .UInt64 => .UInt64

mutual

/-- Modelled from the spec (§4.1): `GenericField::validate` lives in
`internal/schema.rs`, outside the provided sources.  Per the spec it
recursively checks the children arity for the node's data type, recursively
validates every child, checks that the dictionary key child is one of the 8
integer kinds, and checks the decimal parameter bounds; the first violation
is returned as a descriptive failure. -/
def validate (g : GenericField) : Except String Unit :=
  match g with
  | .mk name dt _ ch _ =>
    match dt with
    | .List =>
      match ch with
      | [c] => validate c
      | _ => .error ("field " ++ name ++ ": List must have exactly one child")
    | .LargeList =>
      match ch with
      | [c] => validate c
      | _ =>
        .error ("field " ++ name ++ ": LargeList must have exactly one child")
    | .Map =>
      match ch with
      | [c] => validate c
      | _ => .error ("field " ++ name ++ ": Map must have exactly one child")
    | .Struct => validateChildren ch
    | .Union => validateChildren ch
    | .Dictionary =>
      match ch with
      | [k, v] =>
        if isIntegerKind k.data_type then
          match validate k with
          | .ok _ => validate v
          | .error e => .error e
        else
          .error ("field " ++ name ++
            ": Dictionary key must be an integer kind")
      | _ =>
        .error ("field " ++ name ++
          ": Dictionary must have exactly two children")
    | .Decimal128 p s =>
      if p ≤ 255 ∧ -128 ≤ s ∧ s ≤ 127 then
        match ch with
        | [] => .ok ()
        | _ =>
          .error ("field " ++ name ++ ": scalar field must have no children")
      else
        .error ("field " ++ name ++ ": decimal parameters out of range")
    | _ =>
      match ch with
      | [] => .ok ()
      | _ => .error ("field " ++ name ++ ": scalar field must have no children")

def validateChildren : List GenericField → Except String Unit
  | [] => .ok ()
  | c :: cs =>
    match validate c with
    | .ok _ => validateChildren cs
    | .error e => .error e

end

/-- Parses the optional strategy entry of a backend field's metadata
(schema.rs:85-88). -/
def strategyOf (m : Metadata) : Except String (Option Strategy) :=
  match lookupMeta strategyKey m with
  | none => .ok none
  | some s =>
    match Strategy.parse s with
    | .ok st => .ok (some st)
    | .error e => .error e

mutual

/-- `TryFrom<&Field> for GenericField` (schema.rs:81-199): parse the strategy
from the metadata, convert the data type (collecting decoded children),
assemble the canonical field and pass it through `validate`. -/
def decodeField (f : Field) : Except String GenericField :=
  match strategyOf f.metadata with
  | .error e => .error e
  | .ok strat =>
    match decodeDataType f.data_type with
    | .error e => .error e
    | .ok (gdt, children) =>
      match validate (.mk f.name gdt f.is_nullable children strat) with
      | .error e => .error e
      | .ok _ => .ok (.mk f.name gdt f.is_nullable children strat)
termination_by fSize f
decreasing_by
  all_goals cases f <;> simp [fSize, dtSize, Field.data_type] <;> omega

/-- The data-type match of `TryFrom<&Field> for GenericField`
(schema.rs:93-186), returning the canonical data type together with the
decoded children pushed by the corresponding arm. -/
def decodeDataType (dt : DataType) :
    Except String (GenericDataType × List GenericField) :=
  match dt with
  | .Boolean => .ok (.Bool, [])
  | .Null => .ok (.Null, [])
  | .Int8 => .ok (.I8, [])
  | .Int16 => .ok (.I16, [])
  | .Int32 => .ok (.I32, [])
  | .Int64 => .ok (.I64, [])
  | .UInt8 => .ok (.U8, [])
  | .UInt16 => .ok (.U16, [])
  | .UInt32 => .ok (.U32, [])
  | .UInt64 => .ok (.U64, [])
  | .Float16 => .ok (.F16, [])
  | .Float32 => .ok (.F32, [])
  | .Float64 => .ok (.F64, [])
  | .Utf8 => .ok (.Utf8, [])
  | .LargeUtf8 => .ok (.LargeUtf8, [])
  | .Date32 => .ok (.Date32, [])
  | .Date64 => .ok (.Date64, [])
  | .Decimal precision scale =>
    if precision > 255 ∨ scale > 127 then
      .error "cannot represent precision / scale of the decimal"
    else
      .ok (.Decimal128 precision (Int.ofNat scale), [])
  | .Time64 .Microsecond => .ok (.Time64 .Microsecond, [])
  | .Time64 .Nanosecond => .ok (.Time64 .Nanosecond, [])
  | .Time64 unit =>
    .error ("Invalid time unit " ++ unit.debugName ++ " for Time64")
  | .Timestamp .Second tz => .ok (.Timestamp .Second tz, [])
  | .Timestamp .Millisecond tz => .ok (.Timestamp .Millisecond tz, [])
  | .Timestamp .Microsecond tz => .ok (.Timestamp .Microsecond tz, [])
  | .Timestamp .Nanosecond tz => .ok (.Timestamp .Nanosecond tz, [])
  | .List f =>
    match decodeField f with
    | .error e => .error e
    | .ok c => .ok (.List, [c])
  | .LargeList f =>
    match decodeField f with
    | .error e => .error e
    | .ok c => .ok (.LargeList, [c])
  | .Struct fs =>
    match decodeFields fs with
    | .error e => .error e
    | .ok cs => .ok (.Struct, cs)
  | .Map f _ =>
    match decodeField f with
    | .error e => .error e
    | .ok c => .ok (.Map, [c])
  | .Union fs ids mode =>
    match ids with
    | some _ => .error "Union types with explicit field indices are not supported"
    | none =>
      if mode.is_dense then
        match decodeFields fs with
        | .error e => .error e
        | .ok cs => .ok (.Union, cs)
      else
        .error "Only dense unions are supported at the moment"
  | .Dictionary int_type data_type is_sorted =>
    if is_sorted then
      .error "Sorted dictionary are not supported"
    else
      match decodeField (.mk "" int_type.toDataType false []) with
      | .error e => .error e
      | .ok k =>
        match decodeField (.mk "" data_type false []) with
        | .error e => .error e
        | .ok v => .ok (.Dictionary, [k, v])
  | _ => .error "Cannot convert data type"
termination_by dtSize dt
decreasing_by
  all_goals simp [fSize, dtSize, flSize]
  all_goals first
  | omega
  | (cases int_type <;> simp [IntegerType.toDataType, dtSize] <;> omega)

def decodeFields : (fs : List Field) → Except String (List GenericField)
  | [] => .ok []
  | f :: fs =>
    match decodeField f with
    | .error e => .error e
    | .ok g =>
      match decodeFields fs with
      | .error e => .error e
      | .ok gs => .ok (g :: gs)
termination_by fs => flSize fs
decreasing_by
  all_goals simp [flSize]
  · have hq := flSize_pos fs; omega
  · have hq := fSize_pos f; omega

end

mutual

def gfSize : GenericField → Nat
  | .mk _ _ _ ch _ => 1 + glSize ch

def glSize : List GenericField → Nat
  | [] => 1
  | c :: cs => gfSize c + glSize cs

end

theorem gfSize_pos (g : GenericField) : 1 ≤ gfSize g := by
  cases g with
  | mk n dt b ch st => simp [gfSize]

theorem glSize_pos (cs : List GenericField) : 1 ≤ glSize cs := by
  cases cs with
  | nil => simp [glSize]
  | cons c cs => have hq := gfSize_pos c; simp [glSize]; omega

theorem gfSize_le_glSize_of_mem {c : GenericField} {cs : List GenericField}
    (h : c ∈ cs) : gfSize c ≤ glSize cs := by
  induction cs with
  | nil => cases h
  | cons g gs ih =>
    cases h with
    | head => have hq := glSize_pos gs; simp [glSize] <;> omega
    | tail _ h' =>
      have h1 := ih h'
      have h2 := gfSize_pos g
      simp [glSize] <;> omega

/-- The metadata written by encode (schema.rs:312-315): `Field::new` starts
with empty metadata, and it is overwritten with the strategy's serialization
exactly when a strategy is present. -/
def metadataOfStrategy : Option Strategy → Metadata
  | none => []
  | some st => st.intoMetadata

mutual

/-- `TryFrom<&GenericField> for Field` (schema.rs:201-319): convert the data
type (with the children of the canonical field), then build the backend field
and write the strategy metadata when present. -/
def encodeField (g : GenericField) : Except String Field :=
  match encodeDataType g.data_type g.children with
  | .error e => .error e
  | .ok dt => .ok (.mk g.name dt g.nullable (metadataOfStrategy g.strategy))
termination_by 2 * gfSize g
decreasing_by
  all_goals cases g <;>
    simp [gfSize, GenericField.data_type, GenericField.children] <;> omega

/-- The data-type match of `TryFrom<&GenericField> for Field`
(schema.rs:205-310), taking the canonical data type together with the
canonical field's children. -/
def encodeDataType (gdt : GenericDataType) (children : List GenericField) :
    Except String DataType :=
  match gdt with
  | .Null => .ok .Null
  | .Bool => .ok .Boolean
  | .I8 => .ok .Int8
  | .I16 => .ok .Int16
  | .I32 => .ok .Int32
  | .I64 => .ok .Int64
  | .U8 => .ok .UInt8
  | .U16 => .ok .UInt16
  | .U32 => .ok .UInt32
  | .U64 => .ok .UInt64
  | .F16 => .ok .Float16
  | .F32 => .ok .Float32
  | .F64 => .ok .Float64
  | .Date32 => .ok .Date32
  | .Date64 => .ok .Date64
  | .Time64 .Microsecond => .ok (.Time64 .Microsecond)
  | .Time64 .Nanosecond => .ok (.Time64 .Nanosecond)
  | .Time64 unit =>
    .error ("Invalid time unit " ++ unit.displayName ++ " for Time64")
  | .Timestamp .Second tz => .ok (.Timestamp .Second tz)
  | .Timestamp .Millisecond tz => .ok (.Timestamp .Millisecond tz)
  | .Timestamp .Microsecond tz => .ok (.Timestamp .Microsecond tz)
  | .Timestamp .Nanosecond tz => .ok (.Timestamp .Nanosecond tz)
  | .Decimal128 precision scale =>
    if scale < 0 then
      .error "arrow2 does not support decimals with negative scale"
    else
      .ok (.Decimal precision scale.toNat)
  | .Utf8 => .ok .Utf8
  | .LargeUtf8 => .ok .LargeUtf8
  | .List =>
    match children with
    | [] => .error "List must a single child"
    | c :: _ =>
      match encodeField c with
      | .error e => .error e
      | .ok f => .ok (.List f)
  | .LargeList =>
    match children with
    | [] => .error "List must a single child"
    | c :: _ =>
      match encodeField c with
      | .error e => .error e
      | .ok f => .ok (.LargeList f)
  | .Struct =>
    match encodeFields children with
    | .error e => .error e
    | .ok fs => .ok (.Struct fs)
  | .Map =>
    match children with
    | [] => .error "Map must a two children"
    | c :: _ =>
      match encodeField c with
      | .error e => .error e
      | .ok f => .ok (.Map f false)
  | .Union =>
    match encodeFields children with
    | .error e => .error e
    | .ok fs => .ok (.Union fs none .Dense)
  | .Dictionary =>
    match children with
    | [] => .error "Dictionary must a two children"
    | [_] => .error "Dictionary must a two children"
    | key_field :: val_child :: _ =>
      match encodeField val_child with
      | .error e => .error e
      | .ok val_field =>
        match key_field.data_type with
        | .U8 => .ok (.Dictionary .UInt8 val_field.data_type false)
        | .U16 => .ok (.Dictionary .UInt16 val_field.data_type false)
        | .U32 => .ok (.Dictionary .UInt32 val_field.data_type false)
        | .U64 => .ok (.Dictionary .UInt64 val_field.data_type false)
        | .I8 => .ok (.Dictionary .Int8 val_field.data_type false)
        | .I16 => .ok (.Dictionary .Int16 val_field.data_type false)
        | .I32 => .ok (.Dictionary .Int32 val_field.data_type false)
        | .I64 => .ok (.Dictionary .Int64 val_field.data_type false)
        | _ => .error "Invalid key type for dictionary"
termination_by 2 * glSize children + 1
decreasing_by
  all_goals simp [gfSize, glSize]
  all_goals first
  | omega
  | (have hq := glSize_pos children; omega)
  | (have h1 := gfSize_pos key_field; have h2 := glSize_pos children; omega)

def encodeFields : (cs : List GenericField) → Except String (List Field)
  | [] => .ok []
  | c :: cs =>
    match encodeField c with
    | .error e => .error e
    | .ok f =>
      match encodeFields cs with
      | .error e => .error e
      | .ok fs => .ok (f :: fs)
termination_by cs => 2 * glSize cs
decreasing_by
  all_goals simp [glSize]
  · have hq := glSize_pos cs; omega
  · have hq := gfSize_pos c; omega

end

/-- Restriction of backend metadata to the single key this subsystem manages
(the strategy key); the carrier of the "ignoring metadata keys not managed by
this subsystem" equivalence of the round-trip property. -/
def normalizeMeta (m : Metadata) : Metadata :=
  match lookupMeta strategyKey m with
  | none => []
  | some s => [(strategyKey, s)]

mutual

/-- Normal form of a backend field under the decode/encode round trip:
metadata is restricted to the managed (strategy) key and the `keys_sorted`
flag of Map types is cleared (decode ignores it, encode re-emits `false`).
On every backend field accepted by decode, `encodeField ∘ decodeField`
produces exactly this normal form. -/
def normalizeField : Field → Field
  | .mk name dt nullable meta =>
    .mk name (normalizeDataType dt) nullable (normalizeMeta meta)

def normalizeDataType : DataType → DataType
  | .List f => .List (normalizeField f)
  | .LargeList f => .LargeList (normalizeField f)
  | .Struct fs => .Struct (normalizeFields fs)
  | .Map f _ => .Map (normalizeField f) false
  | .Union fs ids mode => .Union (normalizeFields fs) ids mode
  | .Dictionary it v b => .Dictionary it (normalizeDataType v) b
  | dt => dt

def normalizeFields : List Field → List Field
  | [] => []
  | f :: fs => normalizeField f :: normalizeFields fs

end

/-- Canonical integer kind of an arrow2 `IntegerType` (what decoding the
freshly built key field of a dictionary produces). -/
def IntegerType.toGeneric : IntegerType → GenericDataType
  | .Int8 => .I8
  | .Int16 => .I16
  | .Int32 => .I32
  | .Int64 => .I64
  | .UInt8 => .U8
  | .UInt16 => .U16
  | .UInt32 => .U32
  | .UInt64 => .U64

theorem serialize_parse {s : String} {st : Strategy}
    (h : Strategy.parse s = .ok st) : st.serialize = s := by
  unfold Strategy.parse at h
  split_ifs at h <;> simp_all <;> subst h <;> rfl

theorem lookupMeta_normalizeMeta (m : Metadata) :
    lookupMeta strategyKey (normalizeMeta m) = lookupMeta strategyKey m := by
  unfold normalizeMeta
  cases h : lookupMeta strategyKey m <;> simp [lookupMeta]

theorem strategyOf_normalizeMeta (m : Metadata) :
    strategyOf (normalizeMeta m) = strategyOf m := by
  unfold strategyOf
  rw [lookupMeta_normalizeMeta]

theorem metadataOfStrategy_strategyOf {m : Metadata} {st : Option Strategy}
    (h : strategyOf m = .ok st) : metadataOfStrategy st = normalizeMeta m := by
  unfold strategyOf at h
  unfold normalizeMeta
  cases hl : lookupMeta strategyKey m with
  | none =>
    simp only [hl] at h ⊢
    simp at h
    subst h
    rfl
  | some s =>
    simp only [hl] at h ⊢
    cases hp : Strategy.parse s with
    | error e => simp only [hp] at h; cases h
    | ok st' =>
      simp only [hp] at h
      simp at h
      subst h
      simp [metadataOfStrategy, Strategy.intoMetadata, serialize_parse hp]

theorem decodeField_key (it : IntegerType) :
    decodeField (.mk "" it.toDataType false []) =
      .ok (.mk "" it.toGeneric false [] none) := by
  cases it <;>
    simp [decodeField, decodeDataType, strategyOf, lookupMeta, validate,
      Field.metadata, Field.data_type, Field.name, Field.is_nullable,
      IntegerType.toDataType, IntegerType.toGeneric]

/-- Round-trip core, proved at all three syntactic levels simultaneously by
strong induction on the structural size: on any backend input accepted by
decode, encode of the decoded canonical value produces exactly the normal
form of the input, and decoding that normal form yields the same canonical
value again. -/
theorem rt_all (n : Nat) :
    (∀ x : Field, fSize x ≤ n → ∀ g : GenericField, decodeField x = .ok g →
      encodeField g = .ok (normalizeField x) ∧
        decodeField (normalizeField x) = .ok g) ∧
    (∀ dt : DataType, dtSize dt ≤ n →
      ∀ (gdt : GenericDataType) (ch : List GenericField),
        decodeDataType dt = .ok (gdt, ch) →
          encodeDataType gdt ch = .ok (normalizeDataType dt) ∧
            decodeDataType (normalizeDataType dt) = .ok (gdt, ch)) ∧
    (∀ fs : List Field, flSize fs ≤ n → ∀ gs : List GenericField,
      decodeFields fs = .ok gs →
        encodeFields gs = .ok (normalizeFields fs) ∧
          decodeFields (normalizeFields fs) = .ok gs) := by
  induction n using Nat.strong_induction_on with
  | _ n IH =>
  have IHf : ∀ x : Field, fSize x < n → ∀ g : GenericField,
      decodeField x = .ok g →
        encodeField g = .ok (normalizeField x) ∧
          decodeField (normalizeField x) = .ok g :=
    fun x hx => (IH (fSize x) hx).1 x le_rfl
  have IHdt : ∀ dt : DataType, dtSize dt < n →
      ∀ (gdt : GenericDataType) (ch : List GenericField),
        decodeDataType dt = .ok (gdt, ch) →
          encodeDataType gdt ch = .ok (normalizeDataType dt) ∧
            decodeDataType (normalizeDataType dt) = .ok (gdt, ch) :=
    fun dt hx => (IH (dtSize dt) hx).2.1 dt le_rfl
  have IHfs : ∀ fs : List Field, flSize fs < n → ∀ gs : List GenericField,
      decodeFields fs = .ok gs →
        encodeFields gs = .ok (normalizeFields fs) ∧
          decodeFields (normalizeFields fs) = .ok gs :=
    fun fs hx => (IH (flSize fs) hx).2.2 fs le_rfl
  refine ⟨?_, ?_, ?_⟩
  · -- field level
    rintro ⟨name, dt, nb, meta⟩ hn g h
    simp only [fSize] at hn
    simp only [decodeField, Field.metadata, Field.data_type, Field.name,
      Field.is_nullable] at h
    cases hst : strategyOf meta with
    | error e => simp only [hst] at h; exact Except.noConfusion h
    | ok strat =>
      simp only [hst] at h
      cases hdt : decodeDataType dt with
      | error e => simp only [hdt] at h; exact Except.noConfusion h
      | ok p =>
        obtain ⟨gdt, ch⟩ := p
        simp only [hdt] at h
        cases hval : validate (.mk name gdt nb ch strat) with
        | error e => simp only [hval] at h; exact Except.noConfusion h
        | ok u =>
          cases u
          simp only [hval, Except.ok.injEq] at h
          subst h
          obtain ⟨he, hd⟩ := IHdt dt (by omega) gdt ch hdt
          constructor
          · simp only [encodeField, GenericField.data_type,
              GenericField.children, GenericField.name, GenericField.nullable,
              GenericField.strategy, he, normalizeField]
            rw [metadataOfStrategy_strategyOf hst]
          · simp only [normalizeField, decodeField, Field.metadata,
              Field.data_type, Field.name, Field.is_nullable,
              strategyOf_normalizeMeta, hst, hd, hval]
  · -- data-type level
    intro dt hn gdt ch h
    cases dt
    case Null =>
      simp only [decodeDataType, Except.ok.injEq, Prod.mk.injEq] at h
      obtain ⟨rfl, rfl⟩ := h
      exact ⟨by simp [encodeDataType, normalizeDataType],
        by simp [decodeDataType, normalizeDataType]⟩
    case Boolean =>
      simp only [decodeDataType, Except.ok.injEq, Prod.mk.injEq] at h
      obtain ⟨rfl, rfl⟩ := h
      exact ⟨by simp [encodeDataType, normalizeDataType],
        by simp [decodeDataType, normalizeDataType]⟩
    case Int8 =>
      simp only [decodeDataType, Except.ok.injEq, Prod.mk.injEq] at h
      obtain ⟨rfl, rfl⟩ := h
      exact ⟨by simp [encodeDataType, normalizeDataType],
        by simp [decodeDataType, normalizeDataType]⟩
    case Int16 =>
      simp only [decodeDataType, Except.ok.injEq, Prod.mk.injEq] at h
      obtain ⟨rfl, rfl⟩ := h
      exact ⟨by simp [encodeDataType, normalizeDataType],
        by simp [decodeDataType, normalizeDataType]⟩
    case Int32 =>
      simp only [decodeDataType, Except.ok.injEq, Prod.mk.injEq] at h
      obtain ⟨rfl, rfl⟩ := h
      exact ⟨by simp [encodeDataType, normalizeDataType],
        by simp [decodeDataType, normalizeDataType]⟩
    case Int64 =>
      simp only [decodeDataType, Except.ok.injEq, Prod.mk.injEq] at h
      obtain ⟨rfl, rfl⟩ := h
      exact ⟨by simp [encodeDataType, normalizeDataType],
        by simp [decodeDataType, normalizeDataType]⟩
    case UInt8 =>
      simp only [decodeDataType, Except.ok.injEq, Prod.mk.injEq] at h
      obtain ⟨rfl, rfl⟩ := h
      exact ⟨by simp [encodeDataType, normalizeDataType],
        by simp [decodeDataType, normalizeDataType]⟩
    case UInt16 =>
      simp only [decodeDataType, Except.ok.injEq, Prod.mk.injEq] at h
      obtain ⟨rfl, rfl⟩ := h
      exact ⟨by simp [encodeDataType, normalizeDataType],
        by simp [decodeDataType, normalizeDataType]⟩
    case UInt32 =>
      simp only [decodeDataType, Except.ok.injEq, Prod.mk.injEq] at h
      obtain ⟨rfl, rfl⟩ := h
      exact ⟨by simp [encodeDataType, normalizeDataType],
        by simp [decodeDataType, normalizeDataType]⟩
    case UInt64 =>
      simp only [decodeDataType, Except.ok.injEq, Prod.mk.injEq] at h
      obtain ⟨rfl, rfl⟩ := h
      exact ⟨by simp [encodeDataType, normalizeDataType],
        by simp [decodeDataType, normalizeDataType]⟩
    case Float16 =>
      simp only [decodeDataType, Except.ok.injEq, Prod.mk.injEq] at h
      obtain ⟨rfl, rfl⟩ := h
      exact ⟨by simp [encodeDataType, normalizeDataType],
        by simp [decodeDataType, normalizeDataType]⟩
    case Float32 =>
      simp only [decodeDataType, Except.ok.injEq, Prod.mk.injEq] at h
      obtain ⟨rfl, rfl⟩ := h
      exact ⟨by simp [encodeDataType, normalizeDataType],
        by simp [decodeDataType, normalizeDataType]⟩
    case Float64 =>
      simp only [decodeDataType, Except.ok.injEq, Prod.mk.injEq] at h
      obtain ⟨rfl, rfl⟩ := h
      exact ⟨by simp [encodeDataType, normalizeDataType],
        by simp [decodeDataType, normalizeDataType]⟩
    case Utf8 =>
      simp only [decodeDataType, Except.ok.injEq, Prod.mk.injEq] at h
      obtain ⟨rfl, rfl⟩ := h
      exact ⟨by simp [encodeDataType, normalizeDataType],
        by simp [decodeDataType, normalizeDataType]⟩
    case LargeUtf8 =>
      simp only [decodeDataType, Except.ok.injEq, Prod.mk.injEq] at h
      obtain ⟨rfl, rfl⟩ := h
      exact ⟨by simp [encodeDataType, normalizeDataType],
        by simp [decodeDataType, normalizeDataType]⟩
    case Binary => simp [decodeDataType] at h
    case Date32 =>
      simp only [decodeDataType, Except.ok.injEq, Prod.mk.injEq] at h
      obtain ⟨rfl, rfl⟩ := h
      exact ⟨by simp [encodeDataType, normalizeDataType],
        by simp [decodeDataType, normalizeDataType]⟩
    case Date64 =>
      simp only [decodeDataType, Except.ok.injEq, Prod.mk.injEq] at h
      obtain ⟨rfl, rfl⟩ := h
      exact ⟨by simp [encodeDataType, normalizeDataType],
        by simp [decodeDataType, normalizeDataType]⟩
    case Time32 u => cases u <;> simp [decodeDataType] at h
    case Time64 u =>
      cases u
      case Second => simp [decodeDataType] at h
      case Millisecond => simp [decodeDataType] at h
      case Microsecond =>
        simp only [decodeDataType, Except.ok.injEq, Prod.mk.injEq] at h
        obtain ⟨rfl, rfl⟩ := h
        exact ⟨by simp [encodeDataType, normalizeDataType],
          by simp [decodeDataType, normalizeDataType]⟩
      case Nanosecond =>
        simp only [decodeDataType, Except.ok.injEq, Prod.mk.injEq] at h
        obtain ⟨rfl, rfl⟩ := h
        exact ⟨by simp [encodeDataType, normalizeDataType],
          by simp [decodeDataType, normalizeDataType]⟩
    case Timestamp u tz =>
      cases u <;>
        (simp only [decodeDataType, Except.ok.injEq, Prod.mk.injEq] at h
         obtain ⟨rfl, rfl⟩ := h
         exact ⟨by simp [encodeDataType, normalizeDataType],
           by simp [decodeDataType, normalizeDataType]⟩)
    case Decimal p s =>
      simp only [decodeDataType] at h
      split at h
      · exact Except.noConfusion h
      · rename_i hc
        simp only [Except.ok.injEq, Prod.mk.injEq] at h
        obtain ⟨rfl, rfl⟩ := h
        constructor
        · simp only [encodeDataType, Int.ofNat_eq_natCast]
          rw [if_neg (by omega)]
          simp [normalizeDataType]
        · simp only [normalizeDataType, decodeDataType]
          rw [if_neg hc]
    case List f =>
      simp only [dtSize] at hn
      simp only [decodeDataType] at h
      cases hdf : decodeField f with
      | error e => simp only [hdf] at h; exact Except.noConfusion h
      | ok c =>
        simp only [hdf, Except.ok.injEq, Prod.mk.injEq] at h
        obtain ⟨rfl, rfl⟩ := h
        obtain ⟨he, hd⟩ := IHf f (by omega) c hdf
        constructor
        · simp only [encodeDataType, he, normalizeDataType]
        · simp only [normalizeDataType, decodeDataType, hd]
    case LargeList f =>
      simp only [dtSize] at hn
      simp only [decodeDataType] at h
      cases hdf : decodeField f with
      | error e => simp only [hdf] at h; exact Except.noConfusion h
      | ok c =>
        simp only [hdf, Except.ok.injEq, Prod.mk.injEq] at h
        obtain ⟨rfl, rfl⟩ := h
        obtain ⟨he, hd⟩ := IHf f (by omega) c hdf
        constructor
        · simp only [encodeDataType, he, normalizeDataType]
        · simp only [normalizeDataType, decodeDataType, hd]
    case Struct fs =>
      simp only [dtSize] at hn
      simp only [decodeDataType] at h
      cases hdf : decodeFields fs with
      | error e => simp only [hdf] at h; exact Except.noConfusion h
      | ok cs =>
        simp only [hdf, Except.ok.injEq, Prod.mk.injEq] at h
        obtain ⟨rfl, rfl⟩ := h
        obtain ⟨he, hd⟩ := IHfs fs (by omega) cs hdf
        constructor
        · simp only [encodeDataType, he, normalizeDataType]
        · simp only [normalizeDataType, decodeDataType, hd]
    case Map f b =>
      simp only [dtSize] at hn
      simp only [decodeDataType] at h
      cases hdf : decodeField f with
      | error e => simp only [hdf] at h; exact Except.noConfusion h
      | ok c =>
        simp only [hdf, Except.ok.injEq, Prod.mk.injEq] at h
        obtain ⟨rfl, rfl⟩ := h
        obtain ⟨he, hd⟩ := IHf f (by omega) c hdf
        constructor
        · simp only [encodeDataType, he, normalizeDataType]
        · simp only [normalizeDataType, decodeDataType, hd]
    case Union fs ids mode =>
      simp only [dtSize] at hn
      cases ids with
      | some l => simp [decodeDataType] at h
      | none =>
        cases mode with
        | Sparse => simp [decodeDataType, UnionMode.is_dense] at h
        | Dense =>
          simp [decodeDataType, UnionMode.is_dense] at h
          cases hdf : decodeFields fs with
          | error e => simp only [hdf] at h; exact Except.noConfusion h
          | ok cs =>
            simp only [hdf, Except.ok.injEq, Prod.mk.injEq] at h
            obtain ⟨rfl, rfl⟩ := h
            obtain ⟨he, hd⟩ := IHfs fs (by omega) cs hdf
            constructor
            · simp only [encodeDataType, he, normalizeDataType]
            · simp [normalizeDataType, decodeDataType, hd, UnionMode.is_dense]
    case Dictionary it v b =>
      simp only [dtSize] at hn
      cases b with
      | true => simp [decodeDataType] at h
      | false =>
        simp only [decodeDataType, Bool.false_eq_true, if_false] at h
        simp only [decodeField_key it] at h
        cases hdv : decodeField (.mk "" v false []) with
        | error e => simp only [hdv] at h; exact Except.noConfusion h
        | ok vc =>
          simp only [hdv, Except.ok.injEq, Prod.mk.injEq] at h
          obtain ⟨rfl, rfl⟩ := h
          obtain ⟨he, hd⟩ :=
            IHf (.mk "" v false []) (by simp [fSize]; omega) vc hdv
          simp only [normalizeField, normalizeMeta, lookupMeta] at he hd
          constructor
          · simp only [encodeDataType, he]
            cases it <;>
              simp [IntegerType.toGeneric, GenericField.data_type,
                Field.data_type, normalizeDataType]
          · simp [normalizeDataType, decodeDataType, decodeField_key it, hd]
  · -- field-list level
    intro fs hn gs h
    cases fs with
    | nil =>
      simp only [decodeFields, Except.ok.injEq] at h
      subst h
      exact ⟨by simp [encodeFields, normalizeFields],
        by simp [decodeFields, normalizeFields]⟩
    | cons f fs' =>
      simp only [flSize] at hn
      have hp1 := fSize_pos f
      have hp2 := flSize_pos fs'
      simp only [decodeFields] at h
      cases hdf : decodeField f with
      | error e => simp only [hdf] at h; exact Except.noConfusion h
      | ok g =>
        simp only [hdf] at h
        cases hds : decodeFields fs' with
        | error e => simp only [hds] at h; exact Except.noConfusion h
        | ok gs' =>
          simp only [hds, Except.ok.injEq] at h
          subst h
          obtain ⟨he1, hd1⟩ := IHf f (by omega) g hdf
          obtain ⟨he2, hd2⟩ := IHfs fs' (by omega) gs' hds
          constructor
          · simp only [encodeFields, he1, he2, normalizeFields]
          · simp only [normalizeFields, decodeFields, hd1, hd2]

/-- Round trip at field level: encode of a decoded field is the normal form
of the input, and decoding the normal form gives the same canonical field. -/
theorem rt_field (x : Field) :
    ∀ g : GenericField, decodeField x = .ok g →
      encodeField g = .ok (normalizeField x) ∧
        decodeField (normalizeField x) = .ok g :=
  (rt_all (fSize x)).1 x le_rfl

/-- Round trip at field-list level. -/
theorem rt_fields (fs : List Field) :
    ∀ gs : List GenericField, decodeFields fs = .ok gs →
      encodeFields gs = .ok (normalizeFields fs) ∧
        decodeFields (normalizeFields fs) = .ok gs :=
  (rt_all (flSize fs)).2.2 fs le_rfl

theorem decodeFields_length {fs : List Field} {gs : List GenericField}
    (h : decodeFields fs = .ok gs) : gs.length = fs.length := by
  induction fs generalizing gs with
  | nil =>
    simp only [decodeFields, Except.ok.injEq] at h
    subst h
    rfl
  | cons f fs' ih =>
    simp only [decodeFields] at h
    cases hdf : decodeField f with
    | error e => simp only [hdf] at h; exact Except.noConfusion h
    | ok g =>
      simp only [hdf] at h
      cases hds : decodeFields fs' with
      | error e => simp only [hds] at h; exact Except.noConfusion h
      | ok gs' =>
        simp only [hds, Except.ok.injEq] at h
        subst h
        simp [ih hds]

theorem normalizeFields_length (fs : List Field) :
    (normalizeFields fs).length = fs.length := by
  induction fs with
  | nil => rfl
  | cons f fs' ih => simp [normalizeFields, ih]

theorem parse_serialize (st : Strategy) :
    Strategy.parse st.serialize = .ok st := by
  cases st <;> rfl

/-- C8: decode maps backend `Time64` only for the Microsecond and Nanosecond
units, failing with an error naming the unit for Second and Millisecond;
symmetrically, encode of a canonical `Time64` whose unit is Second or
Millisecond fails naming the unit, and succeeds for Microsecond and
Nanosecond. -/
theorem c8_time64_units :
    (∀ (name : String) (nb : Bool),
      decodeField (.mk name (.Time64 .Second) nb []) =
        .error "Invalid time unit Second for Time64") ∧
    (∀ (name : String) (nb : Bool),
      decodeField (.mk name (.Time64 .Millisecond) nb []) =
        .error "Invalid time unit Millisecond for Time64") ∧
    (∀ (name : String) (nb : Bool),
      decodeField (.mk name (.Time64 .Microsecond) nb []) =
        .ok (.mk name (.Time64 .Microsecond) nb [] none)) ∧
    (∀ (name : String) (nb : Bool),
      decodeField (.mk name (.Time64 .Nanosecond) nb []) =
        .ok (.mk name (.Time64 .Nanosecond) nb [] none)) ∧
    (∀ (name : String) (nb : Bool) (ch : List GenericField)
        (st : Option Strategy),
      encodeField (.mk name (.Time64 .Second) nb ch st) =
        .error "Invalid time unit Second for Time64") ∧
    (∀ (name : String) (nb : Bool) (ch : List GenericField)
        (st : Option Strategy),
      encodeField (.mk name (.Time64 .Millisecond) nb ch st) =
        .error "Invalid time unit Millisecond for Time64") ∧
    (∀ (name : String) (nb : Bool) (ch : List GenericField)
        (st : Option Strategy),
      encodeField (.mk name (.Time64 .Microsecond) nb ch st) =
        .ok (.mk name (.Time64 .Microsecond) nb (metadataOfStrategy st))) ∧
    (∀ (name : String) (nb : Bool) (ch : List GenericField)
        (st : Option Strategy),
      encodeField (.mk name (.Time64 .Nanosecond) nb ch st) =
        .ok (.mk name (.Time64 .Nanosecond) nb (metadataOfStrategy st))) := by
  refine ⟨?_, ?_, ?_, ?_, ?_, ?_, ?_, ?_⟩ <;>
    intro name nb <;>
    simp [decodeField, decodeDataType, strategyOf, lookupMeta, validate,
      encodeField, encodeDataType, TimeUnit.debugName,
      GenericTimeUnit.displayName, Field.metadata, Field.data_type, Field.name,
      Field.is_nullable, GenericField.name, GenericField.data_type,
      GenericField.nullable, GenericField.children, GenericField.strategy]

/-- C9: every canonical field returned successfully by decode satisfies
`validate`: the freshly constructed field is passed through `validate` before
being returned, so decode never returns a field that fails validation. -/
theorem c9_decode_validates (x : Field) (g : GenericField)
    (h : decodeField x = .ok g) : validate g = .ok () := by
  simp only [decodeField] at h
  cases hst : strategyOf x.metadata with
  | error e => simp only [hst] at h; exact Except.noConfusion h
  | ok strat =>
    simp only [hst] at h
    cases hdt : decodeDataType x.data_type with
    | error e => simp only [hdt] at h; exact Except.noConfusion h
    | ok p =>
      obtain ⟨gdt, ch⟩ := p
      simp only [hdt] at h
      cases hval : validate (.mk x.name gdt x.is_nullable ch strat) with
      | error e => simp only [hval] at h; exact Except.noConfusion h
      | ok u =>
        cases u
        simp only [hval, Except.ok.injEq] at h
        subst h
        exact hval

/-- C9 witness: a concrete decode whose result validates. -/
theorem c9_decode_validates_witness :
    decodeField (.mk "w9" (.List (.mk "item" .UInt32 true [])) false []) =
        .ok (.mk "w9" .List false [.mk "item" .U32 true [] none] none) ∧
      validate (.mk "w9" .List false [.mk "item" .U32 true [] none] none) =
        .ok () := by
  have h : decodeField (.mk "w9" (.List (.mk "item" .UInt32 true [])) false []) =
      .ok (.mk "w9" .List false [.mk "item" .U32 true [] none] none) := by
    simp [decodeField, decodeDataType, strategyOf, lookupMeta, validate,
      Field.metadata, Field.data_type, Field.name, Field.is_nullable]
  exact ⟨h, c9_decode_validates _ _ h⟩

/-- C10 (amended): for canonical List, LargeList and Map fields, encode uses
the first child only — extra children beyond the first do not change the
result — and the arity failure of these arms occurs exactly when the children
sequence is empty (a failure encoding the first child itself still
propagates). -/
theorem c10_encode_first_child_only :
    (∀ (name : String) (nb : Bool) (st : Option Strategy) (c : GenericField)
        (rest : List GenericField),
      encodeField (.mk name .List nb (c :: rest) st) =
        encodeField (.mk name .List nb [c] st)) ∧
    (∀ (name : String) (nb : Bool) (st : Option Strategy) (c : GenericField)
        (rest : List GenericField),
      encodeField (.mk name .LargeList nb (c :: rest) st) =
        encodeField (.mk name .LargeList nb [c] st)) ∧
    (∀ (name : String) (nb : Bool) (st : Option Strategy) (c : GenericField)
        (rest : List GenericField),
      encodeField (.mk name .Map nb (c :: rest) st) =
        encodeField (.mk name .Map nb [c] st)) ∧
    (∀ (name : String) (nb : Bool) (st : Option Strategy),
      encodeField (.mk name .List nb [] st) =
        .error "List must a single child") ∧
    (∀ (name : String) (nb : Bool) (st : Option Strategy),
      encodeField (.mk name .LargeList nb [] st) =
        .error "List must a single child") ∧
    (∀ (name : String) (nb : Bool) (st : Option Strategy),
      encodeField (.mk name .Map nb [] st) =
        .error "Map must a two children") := by
  refine ⟨?_, ?_, ?_, ?_, ?_, ?_⟩ <;>
    intro name nb st <;>
    simp [encodeField, encodeDataType, GenericField.name,
      GenericField.data_type, GenericField.nullable, GenericField.children,
      GenericField.strategy]

/-- C10 counterexample: a canonical List field with two children whose encode
nevertheless fails (the first child is a negative-scale decimal), refuting
the claim that encode succeeds for every such field and fails only on empty
children. -/
theorem c10_counterexample :
    encodeField (.mk "l" .List false
        [.mk "bad" (.Decimal128 5 (-1)) false [] none,
         .mk "second" .I32 false [] none] none) =
      .error "arrow2 does not support decimals with negative scale" := by
  simp [encodeField, encodeDataType, GenericField.name, GenericField.data_type,
    GenericField.nullable, GenericField.children, GenericField.strategy]

/-- C3 counterexample: a backend Map field with the keys-sorted flag set to
true is accepted by decode (the flag is matched with a wildcard), refuting
the claim that sorted Maps fail decode. -/
theorem c3_counterexample :
    decodeField (.mk "m2" (.Map (.mk "entries" .Utf8 false []) true) true []) =
      .ok (.mk "m2" .Map true [.mk "entries" .Utf8 false [] none] none) := by
  simp [decodeField, decodeDataType, strategyOf, lookupMeta, validate,
    Field.metadata, Field.data_type, Field.name, Field.is_nullable]

/-- C3 (amended): decode ignores the keys-sorted flag of a backend Map field
entirely — the result is the same for both flag values — and encode always
produces a backend Map with keys-sorted=false. -/
theorem c3_map_sorted_flag :
    (∀ (name : String) (nb : Bool) (m : Metadata) (ef : Field) (b1 b2 : Bool),
      decodeField (.mk name (.Map ef b1) nb m) =
        decodeField (.mk name (.Map ef b2) nb m)) ∧
    (∀ (g : GenericField) (f : Field), g.data_type = .Map →
      encodeField g = .ok f → ∃ ef : Field, f.data_type = .Map ef false) := by
  constructor
  · intro name nb m ef b1 b2
    simp only [decodeField, decodeDataType, Field.metadata, Field.data_type,
      Field.name, Field.is_nullable]
  · rintro ⟨name, dt, nb, ch, st⟩ f hdt he
    simp only [GenericField.data_type] at hdt
    subst hdt
    cases ch with
    | nil =>
      simp only [encodeField, encodeDataType, GenericField.name,
        GenericField.data_type, GenericField.nullable, GenericField.children,
        GenericField.strategy] at he
      exact Except.noConfusion he
    | cons c rest =>
      simp only [encodeField, GenericField.name, GenericField.data_type,
        GenericField.nullable, GenericField.children,
        GenericField.strategy] at he
      simp only [encodeDataType] at he
      cases hec : encodeField c with
      | error e => simp only [hec] at he; exact Except.noConfusion he
      | ok ef =>
        simp only [hec, Except.ok.injEq] at he
        subst he
        exact ⟨ef, by simp [Field.data_type]⟩

/-- C3 witness: the amended statement applied at concrete inputs. -/
theorem c3_map_sorted_flag_witness :
    decodeField (.mk "wm" (.Map (.mk "e" .Boolean false []) true) false []) =
        decodeField (.mk "wm" (.Map (.mk "e" .Boolean false []) false) false []) ∧
      ∃ ef : Field,
        (Field.mk "wm" (.Map (.mk "e" .Boolean false []) false) false
            []).data_type = .Map ef false := by
  constructor
  · exact c3_map_sorted_flag.1 "wm" false [] (.mk "e" .Boolean false []) true
      false
  · exact c3_map_sorted_flag.2
      (.mk "wm" .Map false [.mk "e" .Bool false [] none] none)
      (.mk "wm" (.Map (.mk "e" .Boolean false []) false) false [])
      (by simp [GenericField.data_type])
      (by simp [encodeField, encodeDataType, metadataOfStrategy,
        GenericField.name, GenericField.data_type, GenericField.nullable,
        GenericField.children, GenericField.strategy])

/-- C4: decode of a backend Decimal fails with the message naming the
unrepresentable precision/scale exactly when precision > 255 or scale > 127
and otherwise produces canonical Decimal128 with the same parameters; encode
of a canonical Decimal128 fails exactly when the scale is negative and
otherwise produces the backend Decimal with the same parameters; in
particular Decimal(256, 0) fails decode and Decimal(38, 2) decodes and
re-encodes to the identical backend decimal. -/
theorem c4_decimal_bounds :
    (∀ (name : String) (nb : Bool) (p s : Nat), p > 255 ∨ s > 127 →
      decodeField (.mk name (.Decimal p s) nb []) =
        .error "cannot represent precision / scale of the decimal") ∧
    (∀ (name : String) (nb : Bool) (p s : Nat), p ≤ 255 → s ≤ 127 →
      decodeField (.mk name (.Decimal p s) nb []) =
        .ok (.mk name (.Decimal128 p (Int.ofNat s)) nb [] none)) ∧
    (∀ (name : String) (nb : Bool) (p : Nat) (s : Int)
        (ch : List GenericField) (st : Option Strategy), s < 0 →
      encodeField (.mk name (.Decimal128 p s) nb ch st) =
        .error "arrow2 does not support decimals with negative scale") ∧
    (∀ (name : String) (nb : Bool) (p : Nat) (s : Int)
        (ch : List GenericField) (st : Option Strategy), 0 ≤ s →
      encodeField (.mk name (.Decimal128 p s) nb ch st) =
        .ok (.mk name (.Decimal p s.toNat) nb (metadataOfStrategy st))) ∧
    decodeField (.mk "d" (.Decimal 256 0) false []) =
      .error "cannot represent precision / scale of the decimal" ∧
    decodeField (.mk "d" (.Decimal 38 2) false []) =
      .ok (.mk "d" (.Decimal128 38 2) false [] none) ∧
    encodeField (.mk "d" (.Decimal128 38 2) false [] none) =
      .ok (.mk "d" (.Decimal 38 2) false []) := by
  refine ⟨?_, ?_, ?_, ?_, ?_, ?_, ?_⟩
  · intro name nb p s hps
    simp [decodeField, decodeDataType, strategyOf, lookupMeta, Field.metadata,
      Field.data_type, Field.name, Field.is_nullable, hps]
  · intro name nb p s hp hs
    have hc : ¬(p > 255 ∨ s > 127) := by omega
    have hneg : -128 ≤ (s : Int) := by omega
    simp [decodeField, decodeDataType, strategyOf, lookupMeta, validate,
      Field.metadata, Field.data_type, Field.name, Field.is_nullable, hc, hp,
      hs, hneg]
  · intro name nb p s ch st hs
    simp [encodeField, encodeDataType, GenericField.name,
      GenericField.data_type, GenericField.nullable, GenericField.children,
      GenericField.strategy, hs]
  · intro name nb p s ch st hs
    have hc : ¬(s < 0) := by omega
    simp [encodeField, encodeDataType, GenericField.name,
      GenericField.data_type, GenericField.nullable, GenericField.children,
      GenericField.strategy, hc]
  · simp [decodeField, decodeDataType, strategyOf, lookupMeta, Field.metadata,
      Field.data_type, Field.name, Field.is_nullable]
  · simp [decodeField, decodeDataType, strategyOf, lookupMeta, validate,
      Field.metadata, Field.data_type, Field.name, Field.is_nullable]
  · simp [encodeField, encodeDataType, metadataOfStrategy, GenericField.name,
      GenericField.data_type, GenericField.nullable, GenericField.children,
      GenericField.strategy]

/-- C4 witness: the bound statements applied at concrete parameters. -/
theorem c4_decimal_bounds_witness :
    decodeField (.mk "w4" (.Decimal 300 0) false []) =
        .error "cannot represent precision / scale of the decimal" ∧
      decodeField (.mk "w4" (.Decimal 10 3) false []) =
        .ok (.mk "w4" (.Decimal128 10 (Int.ofNat 3)) false [] none) ∧
      encodeField (.mk "w4" (.Decimal128 10 (-2)) false [] none) =
        .error "arrow2 does not support decimals with negative scale" ∧
      encodeField (.mk "w4" (.Decimal128 10 3) false [] none) =
        .ok (.mk "w4" (.Decimal 10 (Int.toNat 3)) false
          (metadataOfStrategy none)) :=
  ⟨c4_decimal_bounds.1 "w4" false 300 0 (by omega),
   c4_decimal_bounds.2.1 "w4" false 10 3 (by omega) (by omega),
   c4_decimal_bounds.2.2.1 "w4" false 10 (-2) [] none (by omega),
   c4_decimal_bounds.2.2.2.1 "w4" false 10 3 [] none (by omega)⟩

/-- C5: a sorted backend dictionary fails decode; an unsorted dictionary with
a 32-bit signed integer key and a Utf8 value decodes to a canonical
Dictionary with exactly two children (integer key child first, value child
second) that round-trips exactly through encode; and encoding a canonical
Dictionary whose first (key) child is not one of the 8 integer kinds
fails. -/
theorem c5_dictionary :
    (∀ (name : String) (nb : Bool) (it : IntegerType) (v : DataType),
      decodeField (.mk name (.Dictionary it v true) nb []) =
        .error "Sorted dictionary are not supported") ∧
    decodeField (.mk "d" (.Dictionary .Int32 .Utf8 false) false []) =
      .ok (.mk "d" .Dictionary false
        [.mk "" .I32 false [] none, .mk "" .Utf8 false [] none] none) ∧
    encodeField (.mk "d" .Dictionary false
        [.mk "" .I32 false [] none, .mk "" .Utf8 false [] none] none) =
      .ok (.mk "d" (.Dictionary .Int32 .Utf8 false) false []) ∧
    (∀ (name : String) (nb : Bool) (k : GenericField)
        (rest : List GenericField) (st : Option Strategy),
      isIntegerKind k.data_type = false →
        ∃ e : String,
          encodeField (.mk name .Dictionary nb (k :: rest) st) = .error e) := by
  refine ⟨?_, ?_, ?_, ?_⟩
  · intro name nb it v
    simp [decodeField, decodeDataType, strategyOf, lookupMeta, Field.metadata,
      Field.data_type, Field.name, Field.is_nullable]
  · simp [decodeField, decodeDataType, strategyOf, lookupMeta, validate,
      isIntegerKind, IntegerType.toDataType, Field.metadata, Field.data_type,
      Field.name, Field.is_nullable, GenericField.data_type]
  · simp [encodeField, encodeDataType, metadataOfStrategy, GenericField.name,
      GenericField.data_type, GenericField.nullable, GenericField.children,
      GenericField.strategy, Field.data_type]
  · intro name nb k rest st hk
    cases rest with
    | nil =>
      exact ⟨"Dictionary must a two children",
        by simp [encodeField, encodeDataType, GenericField.name,
          GenericField.data_type, GenericField.nullable,
          GenericField.children, GenericField.strategy]⟩
    | cons v rest2 =>
      cases hev : encodeField v with
      | error e =>
        exact ⟨e, by simp [encodeField, encodeDataType, GenericField.name,
          GenericField.data_type, GenericField.nullable,
          GenericField.children, GenericField.strategy, hev]⟩
      | ok vf =>
        refine ⟨"Invalid key type for dictionary", ?_⟩
        obtain ⟨kn, kdt, knb, kch, kst⟩ := k
        simp only [GenericField.data_type] at hk
        cases kdt <;>
          simp_all [isIntegerKind, encodeField, encodeDataType,
            GenericField.name, GenericField.data_type, GenericField.nullable,
            GenericField.children, GenericField.strategy]

/-- C5 witness: the universally quantified parts applied at concrete
inputs. -/
theorem c5_dictionary_witness :
    decodeField (.mk "wd" (.Dictionary .UInt8 .Boolean true) true []) =
        .error "Sorted dictionary are not supported" ∧
      ∃ e : String,
        encodeField (.mk "wd" .Dictionary false
            [.mk "" .Utf8 false [] none, .mk "" .I32 false [] none] none) =
          .error e :=
  ⟨c5_dictionary.1 "wd" true .UInt8 .Boolean,
   c5_dictionary.2.2.2 "wd" false (.mk "" .Utf8 false [] none)
     [.mk "" .I32 false [] none] none
     (by simp [isIntegerKind, GenericField.data_type])⟩

/-- Observation used to separate two concrete backend fields: the keys-sorted
flag of a top-level Map data type. -/
def c1MapFlag : Field → Bool
  | .mk _ (.Map _ b) _ _ => b
  | _ => false

/-- C1 counterexample: a backend Map field with keys-sorted=true (and empty
metadata, so the managed-metadata proviso is inert) is accepted by decode,
but re-encoding produces keys-sorted=false — a field different from the
input.  This refutes `encode(decode(x)) = x` as stated. -/
theorem c1_counterexample :
    decodeField (.mk "m" (.Map (.mk "entries" .Int32 false []) true) false
        []) =
        .ok (.mk "m" .Map false [.mk "entries" .I32 false [] none] none) ∧
      encodeField
          (.mk "m" .Map false [.mk "entries" .I32 false [] none] none) =
        .ok (.mk "m" (.Map (.mk "entries" .Int32 false []) false) false []) ∧
      (Field.mk "m" (.Map (.mk "entries" .Int32 false []) true) false
          []).metadata = [] ∧
      Field.mk "m" (.Map (.mk "entries" .Int32 false []) false) false [] ≠
        Field.mk "m" (.Map (.mk "entries" .Int32 false []) true) false [] := by
  refine ⟨?_, ?_, rfl, ?_⟩
  · simp [decodeField, decodeDataType, strategyOf, lookupMeta, validate,
      Field.metadata, Field.data_type, Field.name, Field.is_nullable]
  · simp [encodeField, encodeDataType, metadataOfStrategy, GenericField.name,
      GenericField.data_type, GenericField.nullable, GenericField.children,
      GenericField.strategy]
  · intro hEq
    have hflag := congrArg c1MapFlag hEq
    simp [c1MapFlag] at hflag

/-- C1 (amended): for every backend field `x` accepted by decode, encoding
the decoded canonical field produces exactly `normalizeField x` — `x` with
metadata restricted to the managed (strategy) key and with the keys-sorted
flag of every Map type reset to false. -/
theorem c1_roundtrip (x : Field) (g : GenericField)
    (h : decodeField x = .ok g) :
    encodeField g = .ok (normalizeField x) :=
  (rt_field x g h).1

/-- C1 witness: the amended round trip at a concrete field. -/
theorem c1_roundtrip_witness :
    decodeField (.mk "w1" .LargeUtf8 true []) =
        .ok (.mk "w1" .LargeUtf8 true [] none) ∧
      encodeField (.mk "w1" .LargeUtf8 true [] none) =
        .ok (normalizeField (.mk "w1" .LargeUtf8 true [])) := by
  have h : decodeField (.mk "w1" .LargeUtf8 true []) =
      .ok (.mk "w1" .LargeUtf8 true [] none) := by
    simp [decodeField, decodeDataType, strategyOf, lookupMeta, validate,
      Field.metadata, Field.data_type, Field.name, Field.is_nullable]
  exact ⟨h, c1_roundtrip _ _ h⟩

/-- C2: every canonical field in the image of decode (the
backend-representable subset) round-trips through encode back to itself; and
a validating canonical Decimal128 with negative scale — a canonical state
strictly more permissive than the backend — fails encode rather than being
approximated. -/
theorem c2_decode_encode_decode :
    (∀ (x : Field) (y : GenericField), decodeField x = .ok y →
      ∃ x2 : Field, encodeField y = .ok x2 ∧ decodeField x2 = .ok y) ∧
    (∀ (name : String) (nb : Bool) (p : Nat) (s : Int) (st : Option Strategy),
      p ≤ 255 → -128 ≤ s → s < 0 →
        validate (.mk name (.Decimal128 p s) nb [] st) = .ok () ∧
          encodeField (.mk name (.Decimal128 p s) nb [] st) =
            .error "arrow2 does not support decimals with negative scale") := by
  constructor
  · intro x y h
    obtain ⟨he, hd⟩ := rt_field x y h
    exact ⟨normalizeField x, he, hd⟩
  · intro name nb p s st hp h1 h2
    have hs127 : s ≤ 127 := by omega
    constructor
    · simp [validate, hp, h1, hs127]
    · simp [encodeField, encodeDataType, GenericField.name,
        GenericField.data_type, GenericField.nullable, GenericField.children,
        GenericField.strategy, h2]

/-- C2 witness: both parts at concrete inputs. -/
theorem c2_decode_encode_decode_witness :
    (∃ x2 : Field, encodeField (.mk "w2" .Date32 false [] none) = .ok x2 ∧
      decodeField x2 = .ok (.mk "w2" .Date32 false [] none)) ∧
      validate (.mk "w2b" (.Decimal128 7 (-3)) true [] none) = .ok () ∧
      encodeField (.mk "w2b" (.Decimal128 7 (-3)) true [] none) =
        .error "arrow2 does not support decimals with negative scale" := by
  refine ⟨?_, ?_⟩
  · exact c2_decode_encode_decode.1 (.mk "w2" .Date32 false [])
      (.mk "w2" .Date32 false [] none)
      (by simp [decodeField, decodeDataType, strategyOf, lookupMeta, validate,
        Field.metadata, Field.data_type, Field.name, Field.is_nullable])
  · exact c2_decode_encode_decode.2 "w2b" true 7 (-3) none (by omega)
      (by omega) (by omega)

/-- Observation used to separate two concrete backend fields: the metadata of
the first variant field of a top-level Union data type. -/
def c6FirstVariantMeta : Field → Metadata
  | .mk _ (.Union (f :: _) _ _) _ _ => f.metadata
  | _ => []

/-- C6 counterexample: a dense backend union whose single variant field
carries an unmanaged metadata entry decodes fine, but re-encoding drops that
entry, so the re-encoded union does not have "the same fields" as the
input. -/
theorem c6_counterexample :
    decodeField (.mk "u"
        (.Union [.mk "a" .Int8 false [("foo", "bar")]] none .Dense) false
        []) = .ok (.mk "u" .Union false [.mk "a" .I8 false [] none] none) ∧
      encodeField (.mk "u" .Union false [.mk "a" .I8 false [] none] none) =
        .ok (.mk "u" (.Union [.mk "a" .Int8 false []] none .Dense) false
          []) ∧
      Field.mk "u" (.Union [.mk "a" .Int8 false []] none .Dense) false [] ≠
        Field.mk "u" (.Union [.mk "a" .Int8 false [("foo", "bar")]] none
          .Dense) false [] := by
  have hfoo : ("foo" = strategyKey) = False := by simp [strategyKey]
  refine ⟨?_, ?_, ?_⟩
  · simp [decodeField, decodeDataType, decodeFields, strategyOf, lookupMeta,
      validate, validateChildren, hfoo, UnionMode.is_dense, Field.metadata,
      Field.data_type, Field.name, Field.is_nullable]
  · simp [encodeField, encodeDataType, encodeFields, metadataOfStrategy,
      GenericField.name, GenericField.data_type, GenericField.nullable,
      GenericField.children, GenericField.strategy]
  · intro hEq
    have hm := congrArg c6FirstVariantMeta hEq
    simp [c6FirstVariantMeta, Field.metadata] at hm

/-- C6 (amended): a backend union with explicit variant indices fails decode
with a descriptive error, and a sparse union fails decode; a dense union with
N variant fields decodes to a canonical Union whose N children are the
decoded variant fields in order, and encoding that canonical Union produces a
dense-mode backend union with no index array whose N fields, in the same
order, are the normalized original variant fields (unmanaged metadata dropped
and Map keys-sorted flags cleared). -/
theorem c6_union :
    (∀ (name : String) (nb : Bool) (fs : List Field) (idx : List Int)
        (mode : UnionMode),
      decodeField (.mk name (.Union fs (some idx) mode) nb []) =
        .error "Union types with explicit field indices are not supported") ∧
    (∀ (name : String) (nb : Bool) (fs : List Field),
      decodeField (.mk name (.Union fs none .Sparse) nb []) =
        .error "Only dense unions are supported at the moment") ∧
    (∀ (name : String) (nb : Bool) (fs : List Field) (g : GenericField),
      decodeField (.mk name (.Union fs none .Dense) nb []) = .ok g →
        ∃ cs : List GenericField,
          decodeFields fs = .ok cs ∧
          g = .mk name .Union nb cs none ∧
          cs.length = fs.length ∧
          (normalizeFields fs).length = fs.length ∧
          encodeField g =
            .ok (.mk name (.Union (normalizeFields fs) none .Dense) nb
              [])) := by
  refine ⟨?_, ?_, ?_⟩
  · intro name nb fs idx mode
    simp [decodeField, decodeDataType, strategyOf, lookupMeta, Field.metadata,
      Field.data_type, Field.name, Field.is_nullable]
  · intro name nb fs
    simp [decodeField, decodeDataType, strategyOf, lookupMeta,
      UnionMode.is_dense, Field.metadata, Field.data_type, Field.name,
      Field.is_nullable]
  · intro name nb fs g h
    obtain ⟨he, _⟩ := rt_field _ g h
    simp only [normalizeField, normalizeDataType, normalizeMeta,
      lookupMeta] at he
    simp only [decodeField, decodeDataType, strategyOf, lookupMeta,
      UnionMode.is_dense, Field.metadata, Field.data_type, Field.name,
      Field.is_nullable, if_true] at h
    cases hdf : decodeFields fs with
    | error e => simp only [hdf] at h; exact Except.noConfusion h
    | ok cs =>
      simp only [hdf] at h
      cases hval : validate (.mk name .Union nb cs none) with
      | error e => simp only [hval] at h; exact Except.noConfusion h
      | ok u =>
        cases u
        simp only [hval, Except.ok.injEq] at h
        exact ⟨cs, rfl, h.symm, decodeFields_length hdf,
          normalizeFields_length fs, he⟩

/-- C6 witness: a concrete dense union with three variant fields. -/
theorem c6_union_witness :
    ∃ cs : List GenericField,
      decodeFields
          [.mk "a" .Int8 false [], .mk "b" .Utf8 true [],
           .mk "c" .Float32 false []] = .ok cs ∧
      GenericField.mk "wu" .Union false
          [.mk "a" .I8 false [] none, .mk "b" .Utf8 true [] none,
           .mk "c" .F32 false [] none] none =
        .mk "wu" .Union false cs none ∧
      cs.length =
        [Field.mk "a" .Int8 false [], .mk "b" .Utf8 true [],
         .mk "c" .Float32 false []].length ∧
      (normalizeFields
          [.mk "a" .Int8 false [], .mk "b" .Utf8 true [],
           .mk "c" .Float32 false []]).length =
        [Field.mk "a" .Int8 false [], .mk "b" .Utf8 true [],
         .mk "c" .Float32 false []].length ∧
      encodeField (.mk "wu" .Union false
          [.mk "a" .I8 false [] none, .mk "b" .Utf8 true [] none,
           .mk "c" .F32 false [] none] none) =
        .ok (.mk "wu"
          (.Union (normalizeFields
            [.mk "a" .Int8 false [], .mk "b" .Utf8 true [],
             .mk "c" .Float32 false []]) none .Dense) false []) :=
  c6_union.2.2 "wu" false
    [.mk "a" .Int8 false [], .mk "b" .Utf8 true [], .mk "c" .Float32 false []]
    (.mk "wu" .Union false
      [.mk "a" .I8 false [] none, .mk "b" .Utf8 true [] none,
       .mk "c" .F32 false [] none] none)
    (by simp [decodeField, decodeDataType, decodeFields, strategyOf,
      lookupMeta, validate, validateChildren, UnionMode.is_dense,
      Field.metadata, Field.data_type, Field.name, Field.is_nullable])

/-- C7: if the reserved strategy key is present in a backend field's
metadata, decode parses its string value into the strategy stored on the
canonical field, and a parse failure fails the whole field's decode; if the
key is absent the canonical field has no strategy; and encode writes the
serialized strategy under the reserved key exactly when the canonical field
carries a strategy, writing no metadata entry otherwise. -/
theorem c7_strategy :
    (∀ (x : Field) (g : GenericField),
      lookupMeta strategyKey x.metadata = none → decodeField x = .ok g →
        g.strategy = none) ∧
    (∀ (x : Field) (g : GenericField) (s : String) (st : Strategy),
      lookupMeta strategyKey x.metadata = some s →
        Strategy.parse s = .ok st → decodeField x = .ok g →
          g.strategy = some st) ∧
    (∀ (x : Field) (s e : String),
      lookupMeta strategyKey x.metadata = some s →
        Strategy.parse s = .error e → decodeField x = .error e) ∧
    (∀ (g : GenericField) (f : Field) (st : Strategy),
      encodeField g = .ok f → g.strategy = some st →
        f.metadata = [(strategyKey, st.serialize)]) ∧
    (∀ (g : GenericField) (f : Field),
      encodeField g = .ok f → g.strategy = none → f.metadata = []) := by
  refine ⟨?_, ?_, ?_, ?_, ?_⟩
  · intro x g hl h
    have hso : strategyOf x.metadata = .ok none := by simp [strategyOf, hl]
    simp only [decodeField, hso] at h
    cases hdt : decodeDataType x.data_type with
    | error e => simp only [hdt] at h; exact Except.noConfusion h
    | ok p =>
      obtain ⟨gdt, ch⟩ := p
      simp only [hdt] at h
      cases hval : validate (.mk x.name gdt x.is_nullable ch none) with
      | error e => simp only [hval] at h; exact Except.noConfusion h
      | ok u =>
        cases u
        simp only [hval, Except.ok.injEq] at h
        subst h
        rfl
  · intro x g s st hl hp h
    have hso : strategyOf x.metadata = .ok (some st) := by
      simp [strategyOf, hl, hp]
    simp only [decodeField, hso] at h
    cases hdt : decodeDataType x.data_type with
    | error e => simp only [hdt] at h; exact Except.noConfusion h
    | ok p =>
      obtain ⟨gdt, ch⟩ := p
      simp only [hdt] at h
      cases hval : validate (.mk x.name gdt x.is_nullable ch (some st)) with
      | error e => simp only [hval] at h; exact Except.noConfusion h
      | ok u =>
        cases u
        simp only [hval, Except.ok.injEq] at h
        subst h
        rfl
  · intro x s e hl hp
    have hso : strategyOf x.metadata = .error e := by simp [strategyOf, hl, hp]
    simp only [decodeField, hso]
  · intro g f st he hst
    simp only [encodeField] at he
    cases hed : encodeDataType g.data_type g.children with
    | error e => simp only [hed] at he; exact Except.noConfusion he
    | ok dt =>
      simp only [hed, Except.ok.injEq] at he
      subst he
      simp [Field.metadata, metadataOfStrategy, Strategy.intoMetadata, hst]
  · intro g f he hst
    simp only [encodeField] at he
    cases hed : encodeDataType g.data_type g.children with
    | error e => simp only [hed] at he; exact Except.noConfusion he
    | ok dt =>
      simp only [hed, Except.ok.injEq] at he
      subst he
      simp [Field.metadata, metadataOfStrategy, hst]

/-- C7 witness: strategy handling at concrete fields — absent key, present
recognized key, present unrecognized key, and both encode directions. -/
theorem c7_strategy_witness :
    (GenericField.mk "n" .Bool false [] none).strategy = none ∧
      (GenericField.mk "s" .Bool false [] (some .MapAsStruct)).strategy =
        some Strategy.MapAsStruct ∧
      decodeField (.mk "b" .Boolean false [(strategyKey, "Nope")]) =
        .error "Invalid strategy: Nope" ∧
      (Field.mk "s" .Boolean false
          [(strategyKey, Strategy.serialize .MapAsStruct)]).metadata =
        [(strategyKey, Strategy.serialize .MapAsStruct)] ∧
      (Field.mk "n" .Boolean false []).metadata = [] := by
  have hd1 : decodeField (.mk "n" .Boolean false []) =
      .ok (.mk "n" .Bool false [] none) := by
    simp [decodeField, decodeDataType, strategyOf, lookupMeta, validate,
      Field.metadata, Field.data_type, Field.name, Field.is_nullable]
  have hparse : Strategy.parse "MapAsStruct" = .ok .MapAsStruct := rfl
  have hd2 : decodeField
      (.mk "s" .Boolean false [(strategyKey, "MapAsStruct")]) =
      .ok (.mk "s" .Bool false [] (some .MapAsStruct)) := by
    simp [decodeField, decodeDataType, strategyOf, lookupMeta, validate,
      Field.metadata, Field.data_type, Field.name, Field.is_nullable, hparse]
  have he1 : encodeField (.mk "s" .Bool false [] (some .MapAsStruct)) =
      .ok (.mk "s" .Boolean false
        [(strategyKey, Strategy.serialize .MapAsStruct)]) := by
    simp [encodeField, encodeDataType, metadataOfStrategy,
      Strategy.intoMetadata, GenericField.name, GenericField.data_type,
      GenericField.nullable, GenericField.children, GenericField.strategy]
  have he2 : encodeField (.mk "n" .Bool false [] none) =
      .ok (.mk "n" .Boolean false []) := by
    simp [encodeField, encodeDataType, metadataOfStrategy, GenericField.name,
      GenericField.data_type, GenericField.nullable, GenericField.children,
      GenericField.strategy]
  refine ⟨?_, ?_, ?_, ?_, ?_⟩
  · exact c7_strategy.1 (.mk "n" .Boolean false []) (.mk "n" .Bool false
      [] none) (by simp [Field.metadata, lookupMeta]) hd1
  · exact c7_strategy.2.1 (.mk "s" .Boolean false
      [(strategyKey, "MapAsStruct")]) (.mk "s" .Bool false []
      (some .MapAsStruct)) "MapAsStruct" .MapAsStruct
      (by simp [Field.metadata, lookupMeta]) hparse hd2
  · exact c7_strategy.2.2.1 (.mk "b" .Boolean false [(strategyKey, "Nope")])
      "Nope" "Invalid strategy: Nope"
      (by simp [Field.metadata, lookupMeta]) rfl
  · exact c7_strategy.2.2.2.1 (.mk "s" .Bool false [] (some .MapAsStruct))
      (.mk "s" .Boolean false
        [(strategyKey, Strategy.serialize .MapAsStruct)]) .MapAsStruct he1
      rfl
  · exact c7_strategy.2.2.2.2 (.mk "n" .Bool false [] none)
      (.mk "n" .Boolean false []) he2 rfl

end SerdeArrow
